import Mathlib

/-!
Shallow embedding of the CRS native event-capture core of
`src/hotspot/src/share/vm/services/connectedRuntime.cpp`: the lock-free
intrusive list `AList`, the thread-local buffer `TLB` and its pool
`TLBManager`, the `CrsMessage` record family with its dedup/blow protocol,
the `NativeMemory` facade and the `ConnectedRuntime` entry points.

Machine integers (`uintx`, `u2`) are modelled as `Nat`, with explicit 64-bit
wrap (`usub`) where the code relies on unsigned subtraction and explicit
truncation mod `2 ^ 16` for the `u2` record-size field.  Pointers into
buffer memory are modelled as indices (buffer index in the pool, message
index inside a buffer).  Concurrent operations are modelled at quiescent
points, as sequential interleavings; external success/failure of
`os::commit_memory` / `os::uncommit_memory` is an oracle argument.
-/

namespace CRS

/-- Pointer-size alignment used by the buffer bump allocator:
`TLBManager::align = sizeof(intptr_t)` on LP64. -/
def ptrAlign : ℕ := 8

/-- HotSpot `align_up(x, a)` for a power-of-two alignment `a`. -/
def alignUp (x a : ℕ) : ℕ := (x + a - 1) / a * a

/-- Unsigned 64-bit subtraction `a - b` as computed on `uintx` operands
(values of 64-bit variables, hence below `2 ^ 64`). -/
def usub (a b : ℕ) : ℕ := if b ≤ a then a - b else a + 2 ^ 64 - b

/-! ## AList: sequential (quiescent-interleaving) model of the lock-free list

`AList::add` CAS-pushes one item onto the head; `AList::add_list` splices a
caller-built chain (keeping the chain's internal link order) in front of the
head; `AList::remove` detaches and returns the head, retrying under
contention, and returns null only on an empty list.  At quiescent points the
visible effect of each operation is the corresponding pure list operation,
head first. -/

def AList.add {α : Type} (i : α) (s : List α) : List α := i :: s

def AList.add_list {α : Type} (l s : List α) : List α := l ++ s

def AList.remove {α : Type} : List α → Option α × List α
  | [] => (none, [])
  | h :: t => (some h, t)

/-- Repeated `AList::remove` until it returns none, collecting the removed
items in removal order. -/
def AList.drain {α : Type} : List α → List α
  | [] => []
  | h :: t => h :: AList.drain t

/-- One producer operation on an `AList`, tagged with the issuing thread. -/
inductive AOp (α : Type) where
  | add (tid : ℕ) (item : α)
  | add_list (tid : ℕ) (chain : List α)
deriving DecidableEq

def AOp.tid {α : Type} : AOp α → ℕ
  | .add t _ => t
  | .add_list t _ => t

def AOp.items {α : Type} : AOp α → List α
  | .add _ i => [i]
  | .add_list _ c => c

def AList.applyOp {α : Type} (s : List α) : AOp α → List α
  | .add _ i => AList.add i s
  | .add_list _ c => AList.add_list c s

/-- The list contents after a sequence of producer operations on an
initially empty `AList`. -/
def AList.run {α : Type} (ops : List (AOp α)) : List α :=
  ops.foldl AList.applyOp []

/-- Items inserted by thread `t`, in that thread's program order. -/
def insertedBy (t : ℕ) (ops : List (AOp ℕ)) : List ℕ :=
  (ops.filter (fun o => o.tid == t)).flatMap AOp.items

/-- Claim C4 as stated: draining an `AList` after a sequence of insertions
returns every inserted item exactly once, in an order whose restriction to
each thread's items is that thread's own insertion order. -/
def claimC4 (ops : List (AOp ℕ)) : Prop :=
  (AList.drain (AList.run ops)).Perm (ops.flatMap AOp.items) ∧
  ∀ t : ℕ,
    (AList.drain (AList.run ops)).filter (fun i => decide (i ∈ insertedBy t ops))
      = insertedBy t ops

/-! ## Record layout constants

Byte offsets and sizes of the `CrsMessage` family on the modelled platform
(LP64 Linux x86_64, `crs_traceid = jint` of 4 bytes, `DL_SHA256 = 32`).
The `CrsMessage` header is `int _type` (4 bytes) + `u2 _size`, data ending
at byte 6, size 8 with alignment 4; derived classes place their first field
at the next suitably aligned offset. -/

/-- Length in bytes of the class-file digest (SHA-256). -/
def DL_SHA256 : ℕ := 32

/-- `offset_of(CrsClassLoadMessage, _source)`: header 8 (next field needs
8-alignment), `InstanceKlass* _klass` 8-16, `crs_traceid _loaderId` 16-20,
`crs_traceid _klass_id` 20-24, bitfield `_flags` 24-28, `u1 _hash[32]`
28-60; the flexible `char _source[]` starts at 60. -/
def offsetClassLoadSource : ℕ := 60

/-- `sizeof(CrsClassLoadMessage)`: 60 rounded up to the struct alignment 8
(the flexible array member contributes nothing). -/
def sizeofClassLoadMessage : ℕ := 64

/-- `offset_of(CrsClassLoadMessageBlown, _source_and_name)`: header data
ends at 6, `_loaderId` at 8 (4-aligned), `_klass_id` 12-16, `_flags` 16-20,
`_hash` 20-52; the flexible `char _source_and_name[]` starts at 52. -/
def offsetBlownSourceAndName : ℕ := 52

/-- `sizeof(CrsFirstCallMessage)`: header 8, `Method* _method` 8-16,
`crs_traceid _holder_id` 16-20, rounded up to alignment 8. -/
def sizeofFirstCallMessage : ℕ := 24

/-- `offset_of(CrsFirstCallMessageBlown, _method_name)`: header data ends
at 6, `_holder_id` at 8 (4-aligned); the flexible `char _method_name[]`
starts at 12. -/
def offsetBlownMethodName : ℕ := 12

/-! ## The CrsMessage record family -/

/-- Opaque class-file digest bytes (external collaborator). -/
abbrev Digest := List ℕ

/-- The runtime data reachable from an `InstanceKlass*` that the records
use: the class name symbol and the two trace ids. -/
structure ClassInfo where
  name : String
  klassId : ℕ
  loaderId : ℕ
deriving DecidableEq

/-- The runtime data reachable from a `Method*` that the records use. -/
structure MethodInfo where
  name : String
  sig : String
  holderId : ℕ
deriving DecidableEq

/-- The `CrsNotificationType` values that tag records in a buffer. -/
inductive CrsType where
  | classLoad
  | firstCall
  | deleted
  | classLoadBlown
  | firstCallBlown
deriving DecidableEq

/-- Payload bytes of a record, by originating constructor.  For a live
class-load record the pair of flags `has_source` / `has_same_source` is
represented by `source.isSome` (the flexible-array copy of the source
string) and `sameSource`; the constructor sets at most one of them. -/
inductive MsgPayload where
  | classLoad (klass : ClassInfo) (hash : Option Digest)
      (source : Option String) (sameSource : Bool)
  | firstCall (method : MethodInfo)
  | classLoadBlown (loaderId klassId : ℕ) (hash : Option Digest)
      (hasSource : Bool) (source : String) (name : String)
  | firstCallBlown (holderId : ℕ) (methodName : String)
deriving DecidableEq

/-- One record in a buffer: the mutable type tag, the `u4 size` argument
given to the `CrsMessage` constructor, and the payload.  `switch_type`
rewrites only `mtype`. -/
structure Msg where
  mtype : CrsType
  msizeArg : ℕ
  payload : MsgPayload
deriving DecidableEq

/-- `CrsMessage::size()`: the stored `u2 _size` field, i.e. the constructor
argument truncated to 16 bits (`_size((u2)size)`). -/
def Msg.size (m : Msg) : ℕ := m.msizeArg % 65536

/-- The walk step the arena traversal `MessageClosure::tlb_do` takes over a
record: `align_up(msg->size(), TLBManager::align)`. -/
def Msg.walkStep (m : Msg) : ℕ := alignUp m.size ptrAlign

/-- The `_source` bytes of a live class-load record, used both by the
dedup comparison in `CrsClassLoadMessage::post` (guarded by the
`has_source` flag) and by back-reference resolution.  Reads the payload
only, so it still yields the bytes after `switch_type` retagged the
record. -/
def Msg.liveSource (m : Msg) : Option String :=
  match m.payload with
  | .classLoad _ _ s _ => s
  | _ => none

/-- In-place update of the `j`-th element of a list (the model of writing
through a pointer into buffer memory). -/
def listModify {α : Type} (f : α → α) : ℕ → List α → List α
  | _, [] => []
  | 0, a :: t => f a :: t
  | n + 1, a :: t => a :: listModify f n t

/-! ## TLB: the thread-local buffer -/

/-- A thread-local buffer (class `TLB`): bump-pointer position, owning
thread, the class-load back-reference slot
(`_reference_message[CRS_MESSAGE_BACK_REFERENCE_CLASS_LOAD]`, modelled as
an index into `msgs`), and the records written into the buffer in order.
The records sit contiguously from the base: record `k` starts at the sum of
the walk steps of records `0..k-1`. -/
structure TLB where
  pos : ℕ := 0
  owner : Option ℕ := none
  refMsg : Option ℕ := none
  msgs : List Msg := []
deriving DecidableEq

instance : Inhabited TLB := ⟨{}⟩

/-- `TLB::lease`: reset the position, clear the back-reference slots,
record the owner.  The old records become dead (overwritten by subsequent
allocation), so the model clears `msgs`. -/
def TLB.lease (t : ℕ) : TLB :=
  { pos := 0, owner := some t, refMsg := none, msgs := [] }

/-- `TLB::release`: clear the owner. -/
def TLB.release (b : TLB) : TLB := { b with owner := none }

/-- `TLB::alloc(size)` followed by the caller's placement-new of the record
`m` at the returned pointer: bump `_pos` by `align_up(size, align)` and
append the record. -/
def TLB.writeMsg (b : TLB) (size : ℕ) (m : Msg) : TLB :=
  { b with pos := b.pos + alignUp size ptrAlign, msgs := b.msgs ++ [m] }

/-- The record the back-reference slot points at, if any. -/
def TLB.refRecord (b : TLB) : Option Msg :=
  b.refMsg.bind fun j => b.msgs.get? j

/-- The source string of the record the back-reference slot points at. -/
def TLB.refSource (b : TLB) : Option String :=
  b.refRecord.bind Msg.liveSource

/-! ## TLBManager: the buffer pool -/

/-- Requests of `2 ^ x` kilobytes, as in the source. -/
def K : ℕ := 1024

/-- `os::vm_page_size()` on the modelled platform (Linux x86_64). -/
def vmPageSize : ℕ := 4096

/-- The geometry the `TLBManager` constructor computes from the requested
area size (LP64: the initial committed-size estimate is
`MIN2(640*K, size)`). -/
structure TLBConfig where
  buffersCount : ℕ
  bufferSize : ℕ
  numCommitted : ℕ
deriving DecidableEq

/-- The arithmetic of `TLBManager::TLBManager(uintx size)`: derive the
buffer count from the desired 8K buffer size (at least 2 buffers), page-align
the buffer size, cap it at 64K (recomputing the count if the cap hits), and
commit between 1 and all of the buffers up front. -/
def TLBManager.configure (size : ℕ) : TLBConfig :=
  let initialCommittedSizeEstimate := min (640 * K) size
  let desiredBufferSize := 8 * K
  let count0 := size / desiredBufferSize
  let count1 := if count0 < 2 then 2 else count0
  let bs0 := alignUp (size / count1) vmPageSize
  let bs := if bs0 > 65536 then 65536 else bs0
  let count := if bs0 > 65536 then size / 65536 else count1
  { buffersCount := count
    bufferSize := bs
    numCommitted := min (max 1 (initialCommittedSizeEstimate / bs)) count }

/-- The pool state of `TLBManager`: the three lifecycle lists hold buffer
indices into `bufs`; `numCommitted` and `bytesUsed` are the two atomic
counters.  (`_not_finished` is always null at quiescent points; it is
threaded through `flushBuffers` internally.) -/
structure Pool where
  free : List ℕ
  leased : List ℕ
  uncommitted : List ℕ
  numCommitted : ℕ
  bytesUsed : ℕ
  bufs : List TLB
  bufferSize : ℕ
  buffersCount : ℕ
deriving DecidableEq

def Pool.buf (p : Pool) (i : ℕ) : TLB := p.bufs.getD i {}

def Pool.setBuf (p : Pool) (i : ℕ) (b : TLB) : Pool :=
  { p with bufs := p.bufs.set i b }

/-- The initial pool built by the `TLBManager` constructor: buffers
`0 .. numCommitted-1` on the free list in index order, the rest on the
uncommitted list in index order (each loop pushes in descending index
order, so the resulting stacks are ascending from the head). -/
def Pool.init (size : ℕ) : Pool :=
  let c := TLBManager.configure size
  { free := List.range c.numCommitted
    leased := []
    uncommitted := (List.range c.buffersCount).drop c.numCommitted
    numCommitted := c.numCommitted
    bytesUsed := 0
    bufs := List.replicate c.buffersCount {}
    bufferSize := c.bufferSize
    buffersCount := c.buffersCount }

/-- `TLBManager::lease_buffer(thread)`: pop the free list; else pop the
uncommitted list and commit its memory (`commitOK` is the outcome of
`os::commit_memory`), pushing the buffer back and failing when the commit
fails; on success lease the buffer to the thread, push it on the leased
list and account its bytes. -/
def Pool.leaseBuffer (p : Pool) (t : ℕ) (commitOK : Bool) :
    Option ℕ × Pool :=
  match AList.remove p.free with
  | (some i, free') =>
      let p := { p with free := free' }
      let p := p.setBuf i (TLB.lease t)
      (some i, { p with leased := AList.add i p.leased,
                        bytesUsed := p.bytesUsed + p.bufferSize })
  | (none, _) =>
      match AList.remove p.uncommitted with
      | (some i, unc') =>
          if commitOK then
            let p := { p with uncommitted := unc',
                              numCommitted := p.numCommitted + 1 }
            let p := p.setBuf i (TLB.lease t)
            (some i, { p with leased := AList.add i p.leased,
                              bytesUsed := p.bytesUsed + p.bufferSize })
          else
            (none, { p with uncommitted := AList.add i unc' })
      | (none, _) => (none, p)

/-- `TLBManager::ensure(buffer, size, thread)`: keep the current buffer when
it has room (`_buffer_size - buffer->pos() >= size`, a `uintx`
subtraction), else release it (it stays on the leased list) and lease a
fresh one. -/
def Pool.ensure (p : Pool) (buffer : Option ℕ) (size t : ℕ)
    (commitOK : Bool) : Option ℕ × Pool :=
  match buffer with
  | some i =>
      if size ≤ usub p.bufferSize (p.buf i).pos then (some i, p)
      else
        let p := p.setBuf i (p.buf i).release
        p.leaseBuffer t commitOK
  | none => p.leaseBuffer t commitOK

/-- `TLBManager::alloc(buffer, size)` together with the caller's record
construction: write record `m` into `size` allocated bytes of buffer `i`
(no bounds check — the caller went through `ensure`). -/
def Pool.allocWrite (p : Pool) (i : ℕ) (size : ℕ) (m : Msg) : Pool :=
  p.setBuf i ((p.buf i).writeMsg size m)

/-! ## Record processing (the flush traversal's upcalls) -/

/-- An agent upcall made while processing a record.  Exceptions raised by
the agent are caught and discarded, so the upcall itself is the observable
effect. -/
inductive Upcall where
  | notifyClassLoad (name : String) (hash : Option Digest)
      (klassId loaderId : ℕ) (source : Option String)
  | notifyFirstCall (holderId : ℕ) (methodName : String)
deriving DecidableEq

/-- `CrsMessage::process(tlb, THREAD)` for the record at index `selfIdx` of
`tlb`: dispatch on the type tag; a live class-load record with a source
publishes itself in the buffer's back-reference slot, a same-source record
resolves its source through that slot; a `Deleted` record does nothing. -/
def Msg.process (tlb : TLB) (selfIdx : ℕ) (m : Msg) : TLB × List Upcall :=
  match m.mtype, m.payload with
  | .classLoad, .classLoad k hash source sameSource =>
      match source with
      | some s =>
          ({ tlb with refMsg := some selfIdx },
           [.notifyClassLoad k.name hash k.klassId k.loaderId (some s)])
      | none =>
          if sameSource then
            (tlb, [.notifyClassLoad k.name hash k.klassId k.loaderId tlb.refSource])
          else
            (tlb, [.notifyClassLoad k.name hash k.klassId k.loaderId none])
  | .classLoadBlown, .classLoadBlown lid kid hash hasSource src name =>
      (tlb, [.notifyClassLoad name hash kid lid (if hasSource then some src else none)])
  | .firstCall, .firstCall mi =>
      (tlb, [.notifyFirstCall mi.holderId (mi.name ++ mi.sig)])
  | .firstCallBlown, .firstCallBlown hid mname =>
      (tlb, [.notifyFirstCall hid mname])
  | _, _ => (tlb, [])

/-- The arena walk of `MessageClosure::tlb_do` from record index `i` on:
process each record in order, threading the buffer (whose back-reference
slot processing may update). -/
def TLB.processFrom : TLB → ℕ → List Msg → TLB × List Upcall
  | tlb, _, [] => (tlb, [])
  | tlb, i, m :: rest =>
      let r := Msg.process tlb i m
      let r' := TLB.processFrom r.1 (i + 1) rest
      (r'.1, r.2 ++ r'.2)

/-- `TLBFlushClosure::tlb_do`: walk all records of the buffer. -/
def TLB.processAll (tlb : TLB) : TLB × List Upcall :=
  TLB.processFrom tlb 0 tlb.msgs

/-! ## TLBManager::flush_buffers -/

/-- The running state of the flush loop: the pool, the `_not_finished`
chain, the local `uncommitted` chain built by `uncommit_buffer`, the
remaining `to_uncommit` budget, and the upcalls made so far. -/
structure FlushSt where
  p : Pool
  notFinished : List ℕ
  unc : List ℕ
  toUncommit : ℕ
  ups : List Upcall

/-- One iteration of the flush loop for the popped leased buffer `i`: a
still-owned buffer goes onto `_not_finished`; otherwise the buffer is
processed, its bytes are released, and it is either decommitted
(`uncommitOK` is the outcome of `os::uncommit_memory`) onto the local chain
or pushed back onto the free list. -/
def Pool.flushStep (process : TLB → TLB × List Upcall)
    (uncommitOK : ℕ → Bool) (st : FlushSt) (i : ℕ) : FlushSt :=
  if ((st.p.buf i).owner).isSome then
    { st with notFinished := i :: st.notFinished }
  else
    let r := process (st.p.buf i)
    let p := st.p.setBuf i r.1
    let p := { p with bytesUsed := usub p.bytesUsed p.bufferSize }
    if st.toUncommit ≠ 0 ∧ uncommitOK i then
      { st with p := { p with numCommitted := p.numCommitted - 1 }
                unc := i :: st.unc
                toUncommit := st.toUncommit - 1
                ups := st.ups ++ r.2 }
    else
      { st with p := { p with free := AList.add i p.free }
                ups := st.ups ++ r.2 }

/-- The trailing `while (to_uncommit)` loop of `flush_buffers`: pop free
buffers and decommit them until the budget is used up, the free list is
empty, or a decommit fails.  On a failed decommit the loop breaks without
pushing the popped buffer anywhere (mirroring the source exactly). -/
def Pool.trailingUncommit (uncommitOK : ℕ → Bool) :
    ℕ → Pool → List ℕ → Pool × List ℕ
  | 0, p, unc => (p, unc)
  | n + 1, p, unc =>
      match AList.remove p.free with
      | (none, _) => (p, unc)
      | (some i, free') =>
          if uncommitOK i then
            Pool.trailingUncommit uncommitOK n
              { p with free := free', numCommitted := p.numCommitted - 1 }
              (i :: unc)
          else
            ({ p with free := free' }, unc)

/-- `TLBManager::flush_buffers(f, committed_goal)`: derive the decommit
budget, pop every leased buffer through the flush loop, splice the
`_not_finished` chain back onto the leased list, run the trailing decommit
loop, and splice the locally collected chain onto the uncommitted list. -/
def Pool.flushBuffers (p : Pool) (process : TLB → TLB × List Upcall)
    (uncommitOK : ℕ → Bool) (committedGoal : ℕ) : Pool × List Upcall :=
  let goal := committedGoal / p.bufferSize
  let toUncommit := p.numCommitted - goal
  let popped := p.leased
  let st0 : FlushSt :=
    { p := { p with leased := [] }, notFinished := [], unc := []
      toUncommit := toUncommit, ups := [] }
  let st := popped.foldl (Pool.flushStep process uncommitOK) st0
  let p1 :=
    if st.notFinished ≠ [] then
      { st.p with leased := AList.add_list st.notFinished st.p.leased }
    else st.p
  let r := Pool.trailingUncommit uncommitOK st.toUncommit p1 st.unc
  let p3 :=
    if r.2 ≠ [] then
      { r.1 with uncommitted := AList.add_list r.2 r.1.uncommitted }
    else r.1
  (p3, st.ups)

/-! ## NativeMemory -/

/-- The `NativeMemory` facade state plus the per-thread buffer slots
(`Thread::crs_thread_locals()->buffer()`, a map from thread id to the
thread's current buffer index). -/
structure Memory where
  pool : Pool
  previousUsage : ℕ
  overflow : Bool
  tbuf : ℕ → Option ℕ

def Memory.setTbuf (mem : Memory) (t : ℕ) (v : Option ℕ) : Memory :=
  { mem with tbuf := fun t' => if t' = t then v else mem.tbuf t' }

/-- `NativeMemory::alloc(size, thread)` fused with the caller's record
construction: fail fast on a sticky overflow, `ensure` a buffer with room
for `m.msizeArg` bytes, update the thread's buffer slot if the buffer
changed, then write the record — or set the overflow flag when no buffer
could be leased. -/
def Memory.alloc (mem : Memory) (m : Msg) (t : ℕ) (commitOK : Bool) :
    Bool × Memory :=
  if mem.overflow then (false, mem)
  else
    let buffer := mem.tbuf t
    let r := mem.pool.ensure buffer m.msizeArg t commitOK
    let mem1 := { mem with pool := r.2 }
    let mem2 := if r.1 ≠ buffer then mem1.setTbuf t r.1 else mem1
    match r.1 with
    | some i => (true, { mem2 with pool := mem2.pool.allocWrite i m.msizeArg m })
    | none => (false, { mem2 with overflow := true })

/-- `NativeMemory::reference_message(ref_id, thread)`: the record the
thread's current buffer's back-reference slot points at, if any. -/
def Memory.referenceMessage (mem : Memory) (t : ℕ) : Option Msg :=
  (mem.tbuf t).bind fun i => (mem.pool.buf i).refRecord

/-- `NativeMemory::alloc(ref_id, &is_reference, size, size_reference,
thread)` fused with the caller's record construction.  `ensure` is called
with the dedup-form size `size`; if the buffer changed, `*is_reference` is
forced true (the old slot lives in the released buffer), the record built
by `mkMsg` for the final flag (whose `msizeArg` is
`is_reference ? size_reference : size`, as in `CrsClassLoadMessage::post`)
is written, and when the flag is set the buffer's back-reference slot is
pointed at the new record. -/
def Memory.allocDedup (mem : Memory) (isRef0 : Bool) (size sizeReference : ℕ)
    (mkMsg : Bool → Msg) (t : ℕ) (commitOK : Bool) : Bool × Memory :=
  if mem.overflow then (false, mem)
  else
    let buffer := mem.tbuf t
    let r := mem.pool.ensure buffer size t commitOK
    let isRef := isRef0 || decide (r.1 ≠ buffer)
    let mem1 := { mem with pool := r.2 }
    let mem2 := if r.1 ≠ buffer then mem1.setTbuf t r.1 else mem1
    match r.1 with
    | some i =>
        let m := mkMsg isRef
        let allocSize := if isRef then sizeReference else size
        let slotIdx := (mem2.pool.buf i).msgs.length
        let mem3 := { mem2 with pool := mem2.pool.allocWrite i allocSize m }
        let mem4 :=
          if isRef then
            { mem3 with pool :=
                mem3.pool.setBuf i { (mem3.pool.buf i) with refMsg := some slotIdx } }
          else mem3
        (true, mem4)
    | none => (false, { mem2 with overflow := true })

/-- `NativeMemory::flush(TRAPS)`: compute the decommit target as the
midpoint of the previous and current usage watermarks, flush the pool with
the processing closure, report the lost byte range if the overflow flag was
set, and clear the flag.  Returns the new state, the upcalls made, and the
overflow report (if any). -/
def Memory.flush (mem : Memory) (uncommitOK : ℕ → Bool) :
    Memory × List Upcall × Option (ℕ × ℕ) :=
  let nextTarget := (mem.previousUsage + mem.pool.bytesUsed) / 2
  let mem1 := { mem with previousUsage := mem.pool.bytesUsed }
  let before := mem1.pool.bytesUsed
  let r := mem1.pool.flushBuffers TLB.processAll uncommitOK nextTarget
  let report := if mem1.overflow then some (before, r.1.bytesUsed) else none
  ({ mem1 with pool := r.1, overflow := false }, r.2, report)

/-- `TLBReleaseClosure::tlb_do` for the buffer at index `i`: release a
still-owned buffer and clear its owner's thread-local slot. -/
def Memory.releaseOne (mem : Memory) (i : ℕ) : Memory :=
  match (mem.pool.buf i).owner with
  | some t =>
      let mem1 := { mem with pool := mem.pool.setBuf i (mem.pool.buf i).release }
      mem1.setTbuf t none
  | none => mem

/-- `NativeMemory::release_buffers`: visit every leased buffer with the
release closure (at a quiescent point `_not_finished` is empty). -/
def Memory.releaseBuffers (mem : Memory) : Memory :=
  mem.pool.leased.foldl Memory.releaseOne mem

/-! ## The record post and blow operations -/

/-- `CrsClassLoadMessage::post(memory, ikh, hash, source, thread)`: look up
the thread's back-reference record (ignoring one without a source), drop an
empty source string, decide between the full form and the same-source
reference form by string comparison, and allocate/construct through the
dedup-aware alloc. -/
def CrsClassLoadMessage.post (mem : Memory) (k : ClassInfo)
    (hash : Option Digest) (source0 : Option String) (t : ℕ)
    (commitOK : Bool) : Memory :=
  let previousReference := (mem.referenceMessage t).bind fun r =>
    if (Msg.liveSource r).isSome then some r else none
  let source := source0.bind fun s => if s = "" then none else some s
  let isNewReference : Bool :=
    match source, previousReference with
    | some s, some r => decide (Msg.liveSource r ≠ some s)
    | some _, none => true
    | none, _ => false
  let sizeReference := offsetClassLoadSource +
    (match source with | some s => s.length + 1 | none => 0)
  let size := if isNewReference then sizeReference else sizeofClassLoadMessage
  let mkMsg : Bool → Msg := fun isRef =>
    { mtype := .classLoad
      msizeArg := if isRef then sizeReference else size
      payload :=
        if isRef then .classLoad k hash source false
        else
          match previousReference with
          | some _ => .classLoad k hash none true
          | none => .classLoad k hash none false }
  (mem.allocDedup isNewReference size sizeReference mkMsg t commitOK).2

/-- `CrsFirstCallMessage::post(memory, method, thread)`. -/
def CrsFirstCallMessage.post (mem : Memory) (mi : MethodInfo) (t : ℕ)
    (commitOK : Bool) : Memory :=
  (mem.alloc { mtype := .firstCall, msizeArg := sizeofFirstCallMessage,
               payload := .firstCall mi } t commitOK).2

/-- The `source_size` computed by `CrsClassLoadMessageBlown::post`: the
stored size of the record carrying the source (the record itself, or the
buffer's back-reference record for the same-source form) minus the source
field offset, and zero for a record without source. -/
def blownSourceSize (fromTlb : TLB) (fm : Msg) : ℕ :=
  match fm.payload with
  | .classLoad _ _ source sameSource =>
      if source.isSome then usub (Msg.size fm) offsetClassLoadSource
      else if sameSource then
        usub (match fromTlb.refRecord with
              | some r => Msg.size r
              | none => 0) offsetClassLoadSource
      else 0
  | _ => 0

/-- The self-contained record `CrsClassLoadMessageBlown::post` constructs
from a live class-load record: ids, flags and digest copied; the source
bytes copied from the record itself or from the buffer's back-reference
record; the class name resolved from the metaspace symbol and appended. -/
def blownSrcStr (fromTlb : TLB) (source : Option String)
    (sameSource : Bool) : String :=
  match source with
  | some s => s
  | none => if sameSource then (fromTlb.refSource).getD "" else ""

def CrsClassLoadMessageBlown.make (fromTlb : TLB) (fm : Msg) : Option Msg :=
  match fm.payload with
  | .classLoad k hash source sameSource =>
      some { mtype := .classLoadBlown
             msizeArg := offsetBlownSourceAndName + blownSourceSize fromTlb fm +
               k.name.length + 1
             payload := .classLoadBlown k.loaderId k.klassId hash
               (source.isSome || sameSource) (blownSrcStr fromTlb source sameSource)
               k.name }
  | _ => none

/-- `CrsClassLoadMessageBlown::post(memory, from_tlb, from_message,
thread)`: allocate through the plain alloc and construct the blown record
(a failed allocation constructs nothing). -/
def CrsClassLoadMessageBlown.post (mem : Memory) (fromTlb : TLB) (fm : Msg)
    (t : ℕ) (commitOK : Bool) : Memory :=
  match CrsClassLoadMessageBlown.make fromTlb fm with
  | some m => (mem.alloc m t commitOK).2
  | none => mem

/-- `CrsClassLoadMessage::blow(memory, tlb, thread)` for the record at
index `msgIdx` of buffer `tlbIdx`: post the blown copy, then
`switch_type(CRS_MESSAGE_DELETED)` rewrites the original record's type tag
in place (unconditionally, even if the blown allocation failed). -/
def CrsClassLoadMessage.blow (mem : Memory) (tlbIdx msgIdx t : ℕ)
    (commitOK : Bool) : Memory :=
  let tlb := mem.pool.buf tlbIdx
  match tlb.msgs.get? msgIdx with
  | some fm =>
      let mem1 := CrsClassLoadMessageBlown.post mem tlb fm t commitOK
      let b1 := mem1.pool.buf tlbIdx
      let b2 : TLB :=
        { b1 with msgs := listModify (fun m => { m with mtype := .deleted })
                    msgIdx b1.msgs }
      { mem1 with pool := mem1.pool.setBuf tlbIdx b2 }
  | none => mem

/-- The record `CrsFirstCallMessageBlown::post` constructs from a live
first-call record: holder id copied, method name and signature resolved and
concatenated. -/
def CrsFirstCallMessageBlown.make (fm : Msg) : Option Msg :=
  match fm.payload with
  | .firstCall mi =>
      some { mtype := .firstCallBlown
             msizeArg := offsetBlownMethodName + mi.name.length +
               mi.sig.length + 1
             payload := .firstCallBlown mi.holderId (mi.name ++ mi.sig) }
  | _ => none

/-! ## ConnectedRuntime entry points -/

/-- The process-wide state the `ConnectedRuntime` entry points consult: the
native memory, the two per-kind `_should_notify` flags, the `UseCRS` flag
and `_is_init`. -/
structure Sys where
  mem : Memory
  clShouldNotify : Bool
  fcShouldNotify : Bool
  useCRS : Bool
  isInit : Bool

/-- `ConnectedRuntime::notify_class_load`. -/
def Sys.notifyClassLoad (s : Sys) (k : ClassInfo) (hash : Option Digest)
    (source : Option String) (t : ℕ) (commitOK : Bool) : Sys :=
  if s.useCRS && s.clShouldNotify then
    { s with mem := CrsClassLoadMessage.post s.mem k hash source t commitOK }
  else s

/-- `ConnectedRuntime::notify_first_call`. -/
def Sys.notifyFirstCall (s : Sys) (mi : MethodInfo) (t : ℕ)
    (commitOK : Bool) : Sys :=
  if s.useCRS && s.fcShouldNotify then
    { s with mem := CrsFirstCallMessage.post s.mem mi t commitOK }
  else s

/-- `ConnectedRuntime::flush_buffers(force, and_stop, THREAD)`: when
`force`, a `VM_CRSOperation(release_buffers_pre, release_buffers_do,
and_stop)` is executed — its `doit` (force-release of every leased buffer,
and when `and_stop` the disabling of both notification kinds) runs only
when the prologue `release_buffers_pre` (`bytes_used() > 0`) allows the
operation; then the memory is flushed. -/
def Sys.flushBuffers (s : Sys) (force andStop : Bool)
    (uncommitOK : ℕ → Bool) : Sys × List Upcall × Option (ℕ × ℕ) :=
  if !s.isInit then (s, [], none)
  else
    let s1 :=
      if force then
        if s.mem.pool.bytesUsed > 0 then
          let s' := { s with mem := s.mem.releaseBuffers }
          if andStop then
            { s' with clShouldNotify := false, fcShouldNotify := false }
          else s'
        else s
      else s
    let r := s1.mem.flush uncommitOK
    ({ s1 with mem := r.1 }, r.2.1, r.2.2)

/-! ## Derived record shapes and concrete states used in the theorems -/

/-- The full-form class-load record `CrsClassLoadMessage::post` writes for a
non-empty source `s` when no matching back-reference exists: size
`offset_of(_source) + strlen(s) + 1`, source copied, `has_same_source`
clear. -/
def fullRecord (k : ClassInfo) (h : Option Digest) (s : String) : Msg :=
  { mtype := .classLoad
    msizeArg := offsetClassLoadSource + (s.length + 1)
    payload := .classLoad k h (some s) false }

/-- The reference-form class-load record written when the back-reference
record carries the same source: size `sizeof(CrsClassLoadMessage)`, no
source copied, `has_same_source` set. -/
def refRecord (k : ClassInfo) (h : Option Digest) : Msg :=
  { mtype := .classLoad
    msizeArg := sizeofClassLoadMessage
    payload := .classLoad k h none true }

/-- A 50-byte source string shared by the first two scenario events. -/
def sourceA : String := "aaaaaaaaaaaaaaaaaaaaaaaaaaaaaaaaaaaaaaaaaaaaaaaaaa"

/-- A distinct 50-byte source string for the third scenario event. -/
def sourceB : String := "bbbbbbbbbbbbbbbbbbbbbbbbbbbbbbbbbbbbbbbbbbbbbbbbbb"

/-- A pool of 2 committed buffers of `bs` bytes each, as posited by the
spec's example scenario. -/
def poolTwo (bs : ℕ) : Pool :=
  { free := [0, 1], leased := [], uncommitted := [], numCommitted := 2
    bytesUsed := 0, bufs := [{}, {}], bufferSize := bs, buffersCount := 2 }

/-- A fresh `NativeMemory` over `poolTwo bs`, no thread holding a buffer
(`_previous_usage` starts at `bytes_committed()`, here both buffers). -/
def memTwo (bs : ℕ) : Memory :=
  { pool := poolTwo bs, previousUsage := 2 * bs, overflow := false
    tbuf := fun _ => none }

/-- The spec's example scenario: one thread posts three class-load events,
the first two sharing the 50-byte source `sourceA`, the third with the
distinct source `sourceB`, into a pool of 2 buffers of `bs` bytes. -/
def scenarioPost3 (bs : ℕ) : Memory :=
  let m1 := CrsClassLoadMessage.post (memTwo bs) ⟨"C1", 1, 7⟩ none (some sourceA) 0 true
  let m2 := CrsClassLoadMessage.post m1 ⟨"C2", 2, 7⟩ none (some sourceA) 0 true
  CrsClassLoadMessage.post m2 ⟨"C3", 3, 7⟩ none (some sourceB) 0 true

/-- An engaged `ConnectedRuntime` state with an idle (never used) pool:
`bytes_used() == 0`, both notification kinds enabled. -/
def sysIdle : Sys :=
  { mem := memTwo 4096, clShouldNotify := true, fcShouldNotify := true
    useCRS := true, isInit := true }

/-- A pool with buffer 0 leased to thread 1 and buffer 1 free, used to
instantiate the `ensure` theorem. -/
def poolLeasedW : Pool :=
  { free := [1], leased := [0], uncommitted := [], numCommitted := 2
    bytesUsed := 4096
    bufs := [{ pos := 0, owner := some 1, refMsg := none, msgs := [] }, {}]
    bufferSize := 4096, buffersCount := 2 }

/-- A full-form class-load record with a one-character source, used to
instantiate the blow and size theorems. -/
def msgFullW : Msg := fullRecord ⟨"A", 5, 3⟩ none "s"

/-- A memory whose buffer 0 (released, on the leased list) holds one live
class-load record, while thread 1 owns the empty buffer 1: the state in
which the eviction scan blows the record. -/
def memBlowW : Memory :=
  { pool :=
      { free := [], leased := [1, 0], uncommitted := [], numCommitted := 2
        bytesUsed := 8192
        bufs := [{ pos := 64, owner := none, refMsg := some 0, msgs := [msgFullW] },
                 { pos := 0, owner := some 1, refMsg := none, msgs := [] }]
        bufferSize := 4096, buffersCount := 2 }
    previousUsage := 0, overflow := false
    tbuf := fun t => if t = 1 then some 1 else none }

/-- A memory whose thread 0 owns the freshly leased buffer 0, used to
instantiate the dedup theorem. -/
def memDedupW : Memory :=
  { pool :=
      { free := [1], leased := [0], uncommitted := [], numCommitted := 2
        bytesUsed := 4096
        bufs := [TLB.lease 0, {}], bufferSize := 4096, buffersCount := 2 }
    previousUsage := 0, overflow := false
    tbuf := fun t => if t = 0 then some 0 else none }

/-- `memTwo 4096` with the sticky overflow flag set. -/
def memOverflowW : Memory := { memTwo 4096 with overflow := true }

/-- `memBlowW` with the sticky overflow flag set: a live class-load record
sits in buffer 0 while the pool is in overflow. -/
def memBlowOvW : Memory := { memBlowW with overflow := true }

/-- The fields the agent upcall receives for a class-load record (live or
blown): name, digest, class id, loader id, source — a live record's
same-source form resolved through the buffer's back-reference slot, as
`CrsClassLoadMessage::process` / `CrsClassLoadMessageBlown::process` do. -/
def Msg.decodeClassLoad (tlb : TLB) (m : Msg) :
    Option (String × Option Digest × ℕ × ℕ × Option String) :=
  match m.payload with
  | .classLoad k h s same =>
      some (k.name, h, k.klassId, k.loaderId,
        if s.isSome then s else if same then tlb.refSource else none)
  | .classLoadBlown lid kid h hasSrc src name =>
      some (name, h, kid, lid, if hasSrc then some src else none)
  | _ => none

/-! ## Arithmetic and list lemmas -/

theorem usub_of_le {a b : ℕ} (h : b ≤ a) : usub a b = a - b := by
  simp [usub, h]

theorem listModify_get?_eq {α : Type} (f : α → α) (j : ℕ) (l : List α) :
    (listModify f j l).get? j = (l.get? j).map f := by
  induction l generalizing j with
  | nil => simp [listModify]
  | cons a t ih =>
      cases j with
      | zero => simp [listModify]
      | succ n => simpa [listModify] using ih n

theorem listModify_get?_ne {α : Type} (f : α → α) (i j : ℕ) (h : i ≠ j)
    (l : List α) : (listModify f i l).get? j = l.get? j := by
  induction l generalizing i j with
  | nil => simp [listModify]
  | cons a t ih =>
      cases i with
      | zero => cases j with
        | zero => exact absurd rfl h
        | succ m => simp [listModify]
      | succ n => cases j with
        | zero => simp [listModify]
        | succ m =>
            have h' : n ≠ m := by omega
            simpa [listModify] using ih n m h'

theorem listModify_map {α β : Type} (f : α → α) (g : α → β)
    (hg : ∀ a, g (f a) = g a) (j : ℕ) (l : List α) :
    (listModify f j l).map g = l.map g := by
  induction l generalizing j with
  | nil => simp [listModify]
  | cons a t ih =>
      cases j with
      | zero => simp [listModify, hg]
      | succ n => simp [listModify, ih n]

/-! ## Claim C4: AList drain order -/

theorem AList.drain_eq {α : Type} (s : List α) : AList.drain s = s := by
  induction s with
  | nil => rfl
  | cons h t ih => simp [AList.drain, ih]

theorem AList.applyOp_eq {α : Type} (s : List α) (o : AOp α) :
    AList.applyOp s o = o.items ++ s := by
  cases o <;> simp [AList.applyOp, AList.add, AList.add_list, AOp.items]

theorem AList.foldl_applyOp {α : Type} (ops : List (AOp α)) (acc : List α) :
    ops.foldl AList.applyOp acc = ops.reverse.flatMap AOp.items ++ acc := by
  induction ops generalizing acc with
  | nil => simp
  | cons o rest ih =>
      simp [List.foldl_cons, ih, AList.applyOp_eq]

theorem AList.run_eq {α : Type} (ops : List (AOp α)) :
    AList.run ops = ops.reverse.flatMap AOp.items := by
  simp [AList.run, AList.foldl_applyOp]

/-- Claim C4, counterexample: one thread pushing 10 then 20 with `AList::add`
gets them back from repeated `AList::remove` in the order 20, 10 — the list
drains LIFO, which is not that thread's insertion order. -/
theorem alist_drain_not_per_thread_fifo :
    ¬ claimC4 [AOp.add 0 10, AOp.add 0 20] := by
  intro h
  exact absurd (h.2 0) (by decide)

/-- Claim C4, amended: draining an `AList` built by any sequence of `add` /
`add_list` operations returns every inserted item exactly once and returns
none only on the empty list, but the removal order is LIFO in the operations:
the chains of the operations in reverse operation order, each `add_list`
chain kept in its internal link order. -/
theorem alist_drain_exactly_once (ops : List (AOp ℕ)) :
    AList.drain (AList.run ops) = ops.reverse.flatMap AOp.items ∧
    (AList.drain (AList.run ops)).Perm (ops.flatMap AOp.items) ∧
    ∀ s : List ℕ, (AList.remove s).1 = none ↔ s = [] := by
  refine ⟨by simp [AList.drain_eq, AList.run_eq], ?_, ?_⟩
  · rw [AList.drain_eq, AList.run_eq]
    exact (List.reverse_perm ops).flatMap_right AOp.items
  · intro s
    cases s <;> simp [AList.remove]

/-! ## Claim C10: TLBManager construction bounds -/

theorem configure_alignUp_bounds (size c1 : ℕ) (hx : size / c1 ≤ 12287) :
    alignUp (size / c1) vmPageSize ≤ 12288 ∧
    alignUp (size / c1) vmPageSize % vmPageSize = 0 := by
  constructor
  · show (size / c1 + 4096 - 1) / 4096 * 4096 ≤ 12288
    omega
  · show (size / c1 + 4096 - 1) / 4096 * 4096 % 4096 = 0
    exact Nat.mul_mod_left _ _

/-- Claim C10: for every requested area size (at least 2 bytes — below that
the constructor would divide by a zero buffer size), the constructor yields
a page-aligned per-buffer size of at most 65536 bytes, at least 2 buffers,
and an initially committed count between 1 and the buffer count, so every
in-buffer offset fits the 16-bit size header and the pool has at least two
lease targets. -/
theorem tlb_manager_config_bounds (size : ℕ) (h : 2 ≤ size) :
    (TLBManager.configure size).bufferSize % vmPageSize = 0 ∧
    (TLBManager.configure size).bufferSize ≤ 65536 ∧
    2 ≤ (TLBManager.configure size).buffersCount ∧
    1 ≤ (TLBManager.configure size).numCommitted ∧
    (TLBManager.configure size).numCommitted ≤
      (TLBManager.configure size).buffersCount := by
  have h8 : 8 * K = 8192 := rfl
  rcases Nat.lt_or_ge (size / (8 * K)) 2 with hc | hc
  · -- fewer than two desired-size buffers: the count is forced to 2
    have hx : size / 2 ≤ 12287 := by
      rw [h8] at hc; omega
    obtain ⟨hb1, hb2⟩ := configure_alignUp_bounds size 2 hx
    have hcap : ¬ alignUp (size / 2) vmPageSize > 65536 := by omega
    simp only [TLBManager.configure, if_pos hc, if_neg hcap]
    refine ⟨hb2, by omega, le_refl 2, ?_, min_le_right _ _⟩
    exact le_min (le_max_left _ _) (by norm_num)
  · -- the count is size / 8K, at least 2
    rw [h8] at hc
    have hq0 : 0 < size / 8192 := by omega
    have hlt : size < 12288 * (size / 8192) := by omega
    have hx : size / (size / 8192) ≤ 12287 := by
      have hd := (Nat.div_lt_iff_lt_mul hq0).mpr hlt
      omega
    obtain ⟨hb1, hb2⟩ := configure_alignUp_bounds size (size / 8192) hx
    have hcne : ¬ size / (8 * K) < 2 := by rw [h8]; omega
    simp only [TLBManager.configure, if_neg hcne]
    rw [h8]
    have hcap' : ¬ alignUp (size / (size / 8192)) vmPageSize > 65536 := by omega
    simp only [if_neg hcap']
    refine ⟨hb2, by omega, hc, ?_, min_le_right _ _⟩
    exact le_min (le_max_left _ _) (by omega)

theorem tlb_manager_config_bounds_witness :
    (TLBManager.configure 1048576).bufferSize % vmPageSize = 0 ∧
    (TLBManager.configure 1048576).bufferSize ≤ 65536 ∧
    2 ≤ (TLBManager.configure 1048576).buffersCount ∧
    1 ≤ (TLBManager.configure 1048576).numCommitted ∧
    (TLBManager.configure 1048576).numCommitted ≤
      (TLBManager.configure 1048576).buffersCount :=
  tlb_manager_config_bounds 1048576 (by norm_num)

/-! ## Pool access lemmas -/

theorem Pool.buf_setBuf_eq (p : Pool) (i : ℕ) (b : TLB)
    (h : i < p.bufs.length) : (p.setBuf i b).buf i = b := by
  simp [Pool.buf, Pool.setBuf, List.getD, List.getElem?_set_eq_of_lt b h]

theorem Pool.buf_setBuf_ne (p : Pool) (i j : ℕ) (b : TLB) (h : i ≠ j) :
    (p.setBuf i b).buf j = p.buf j := by
  simp [Pool.buf, Pool.setBuf, List.getD, List.getElem?_set_ne h]

theorem Pool.setBuf_ge (p : Pool) (i : ℕ) (b : TLB)
    (h : p.bufs.length ≤ i) : p.setBuf i b = p := by
  simp [Pool.setBuf, List.set_eq_of_length_le h]

theorem Pool.buf_ge (p : Pool) (i : ℕ) (h : p.bufs.length ≤ i) :
    p.buf i = {} := by
  simp [Pool.buf, List.getD, List.getElem?_eq_none h]

theorem Pool.buf_setBuf_self_pos (p : Pool) (i : ℕ) (b : TLB)
    (hb : b.pos = 0) : ((p.setBuf i b).buf i).pos = 0 := by
  rcases Nat.lt_or_ge i p.bufs.length with h | h
  · rw [Pool.buf_setBuf_eq p i b h, hb]
  · rw [Pool.setBuf_ge p i b h, Pool.buf_ge p i h]

theorem Pool.buf_setBuf_self_owner_none (p : Pool) (i : ℕ) (b : TLB)
    (hb : b.owner = none) : ((p.setBuf i b).buf i).owner = none := by
  rcases Nat.lt_or_ge i p.bufs.length with h | h
  · rw [Pool.buf_setBuf_eq p i b h, hb]
  · rw [Pool.setBuf_ge p i b h, Pool.buf_ge p i h]

/-! ## Claim C3: ensure -/

theorem Pool.leaseBuffer_result (p : Pool) (t : ℕ) (ck : Bool) (j : ℕ)
    (h : (p.leaseBuffer t ck).1 = some j) :
    (j ∈ p.free ∨ j ∈ p.uncommitted) ∧
    (p.leaseBuffer t ck).2.bufs = p.bufs.set j (TLB.lease t) := by
  cases hf : p.free with
  | cons a rest =>
      have hr : (p.leaseBuffer t ck).1 = some a ∧
          (p.leaseBuffer t ck).2.bufs = p.bufs.set a (TLB.lease t) := by
        constructor <;> simp [Pool.leaseBuffer, hf, AList.remove, Pool.setBuf]
      rw [hr.1] at h
      obtain rfl : a = j := by simpa using h
      exact ⟨Or.inl (List.mem_cons_self _ _), hr.2⟩
  | nil =>
      cases hu : p.uncommitted with
      | cons a rest =>
          cases ck with
          | true =>
              have hr : (p.leaseBuffer t true).1 = some a ∧
                  (p.leaseBuffer t true).2.bufs = p.bufs.set a (TLB.lease t) := by
                constructor <;>
                  simp [Pool.leaseBuffer, hf, hu, AList.remove, Pool.setBuf]
              rw [hr.1] at h
              obtain rfl : a = j := by simpa using h
              exact ⟨Or.inr (List.mem_cons_self _ _), hr.2⟩
          | false =>
              have hr : (p.leaseBuffer t false).1 = none := by
                simp [Pool.leaseBuffer, hf, hu, AList.remove]
              rw [hr] at h
              cases h
      | nil =>
          have hr : (p.leaseBuffer t ck).1 = none := by
            simp [Pool.leaseBuffer, hf, hu, AList.remove]
          rw [hr] at h
          cases h

theorem Pool.leaseBuffer_mem (p : Pool) (t : ℕ) (ck : Bool) (j : ℕ)
    (h : (p.leaseBuffer t ck).1 = some j) :
    j ∈ p.free ∨ j ∈ p.uncommitted :=
  (Pool.leaseBuffer_result p t ck j h).1

theorem Pool.leaseBuffer_pos (p : Pool) (t : ℕ) (ck : Bool) (j : ℕ)
    (h : (p.leaseBuffer t ck).1 = some j) :
    ((p.leaseBuffer t ck).2.buf j).pos = 0 := by
  have hb := (Pool.leaseBuffer_result p t ck j h).2
  show (((p.leaseBuffer t ck).2.bufs.getD j {}) : TLB).pos = 0
  rw [hb]
  rcases Nat.lt_or_ge j p.bufs.length with hl | hl
  · simp [List.getD, List.getElem?_set_eq_of_lt _ hl, TLB.lease]
  · simp [List.set_eq_of_length_le hl, List.getD, List.getElem?_eq_none hl]

theorem Pool.leaseBuffer_buf_other (p : Pool) (t : ℕ) (ck : Bool) (i : ℕ)
    (hf : i ∉ p.free) (hu : i ∉ p.uncommitted) :
    (p.leaseBuffer t ck).2.buf i = p.buf i := by
  cases hr : (p.leaseBuffer t ck).1 with
  | some j =>
      have hb := (Pool.leaseBuffer_result p t ck j hr).2
      have hmem := (Pool.leaseBuffer_result p t ck j hr).1
      have hji : j ≠ i := by
        rintro rfl
        rcases hmem with hm | hm
        · exact hf hm
        · exact hu hm
      show ((p.leaseBuffer t ck).2.bufs.getD i {}) = p.buf i
      rw [hb]
      simp [Pool.buf, List.getD, List.getElem?_set_ne hji]
  | none =>
      -- the failure paths leave the buffer array unchanged
      cases hfr : p.free with
      | cons a rest =>
          have : (p.leaseBuffer t ck).1 = some a := by
            simp [Pool.leaseBuffer, hfr, AList.remove]
          rw [hr] at this
          cases this
      | nil =>
          cases hun : p.uncommitted with
          | cons a rest =>
              cases ck with
              | true =>
                  have : (p.leaseBuffer t true).1 = some a := by
                    simp [Pool.leaseBuffer, hfr, hun, AList.remove]
                  rw [hr] at this
                  cases this
              | false =>
                  have hb : (p.leaseBuffer t false).2.bufs = p.bufs := by
                    simp [Pool.leaseBuffer, hfr, hun, AList.remove]
                  show ((p.leaseBuffer t false).2.bufs.getD i {}) = p.buf i
                  rw [hb]
                  rfl
          | nil =>
              have hb : (p.leaseBuffer t ck).2.bufs = p.bufs := by
                simp [Pool.leaseBuffer, hfr, hun, AList.remove]
              show ((p.leaseBuffer t ck).2.bufs.getD i {}) = p.buf i
              rw [hb]
              rfl

/-- Claim C3: `ensure(buf, size, thread)` with `size <= buffer_size` on a
pool whose current buffer is consistent (position within the buffer, not on
the free or uncommitted lists): it returns the buffer unchanged when the
remaining space suffices; otherwise it releases the buffer (owner cleared)
and leases a distinct fresh one; and any buffer it returns has at least
`size` bytes of remaining space. -/
theorem ensure_spec (p : Pool) (buffer : Option ℕ) (size t : ℕ) (ck : Bool)
    (hsize : size ≤ p.bufferSize)
    (hpos : ∀ i, buffer = some i → (p.buf i).pos ≤ p.bufferSize)
    (hsep : ∀ i, buffer = some i → i ∉ p.free ∧ i ∉ p.uncommitted) :
    (∀ i, buffer = some i → size ≤ p.bufferSize - (p.buf i).pos →
        p.ensure buffer size t ck = (some i, p)) ∧
    (∀ i, buffer = some i → ¬ size ≤ p.bufferSize - (p.buf i).pos →
        ((p.ensure buffer size t ck).2.buf i).owner = none ∧
        ∀ j, (p.ensure buffer size t ck).1 = some j → j ≠ i) ∧
    (∀ j, (p.ensure buffer size t ck).1 = some j →
        size ≤ p.bufferSize - ((p.ensure buffer size t ck).2.buf j).pos) := by
  cases buffer with
  | none =>
      refine ⟨?_, ?_, ?_⟩
      · intro i hi; cases hi
      · intro i hi; cases hi
      · intro j hj
        simp only [Pool.ensure] at hj ⊢
        rw [Pool.leaseBuffer_pos p t ck j hj]
        omega
  | some i =>
      have husub : usub p.bufferSize (p.buf i).pos =
          p.bufferSize - (p.buf i).pos := usub_of_le (hpos i rfl)
      by_cases hroom : size ≤ p.bufferSize - (p.buf i).pos
      · have hcond : size ≤ usub p.bufferSize (p.buf i).pos := by
          rw [husub]; exact hroom
        refine ⟨?_, ?_, ?_⟩
        · intro i' hi' _
          cases hi'
          simp only [Pool.ensure, if_pos hcond]
        · intro i' hi' hnr
          cases hi'
          exact absurd hroom hnr
        · intro j hj
          simp only [Pool.ensure, if_pos hcond] at hj ⊢
          cases hj
          exact hroom
      · have hcond : ¬ size ≤ usub p.bufferSize (p.buf i).pos := by
          rw [husub]; exact hroom
        have hsepi := hsep i rfl
        -- after release, the pool delegates to lease_buffer on the released pool
        have hfree' : i ∉ (p.setBuf i (p.buf i).release).free := by
          simpa [Pool.setBuf] using hsepi.1
        have hunc' : i ∉ (p.setBuf i (p.buf i).release).uncommitted := by
          simpa [Pool.setBuf] using hsepi.2
        refine ⟨?_, ?_, ?_⟩
        · intro i' hi' hr
          cases hi'
          exact absurd hr hroom
        · intro i' hi' _
          cases hi'
          constructor
          · simp only [Pool.ensure, if_neg hcond]
            rw [Pool.leaseBuffer_buf_other _ t ck i hfree' hunc']
            exact Pool.buf_setBuf_self_owner_none p i _ rfl
          · intro j hj
            simp only [Pool.ensure, if_neg hcond] at hj
            have := Pool.leaseBuffer_mem _ t ck j hj
            intro hji
            cases hji
            rcases this with hmem | hmem
            · exact hfree' hmem
            · exact hunc' hmem
        · intro j hj
          simp only [Pool.ensure, if_neg hcond] at hj ⊢
          rw [Pool.leaseBuffer_pos _ t ck j hj]
          omega

/-- Claim C3, witness: on a pool with buffer 0 leased to thread 1 and
empty, `ensure (some 0) 64` keeps the buffer. -/
theorem ensure_spec_witness :
    poolLeasedW.ensure (some 0) 64 1 true = (some 0, poolLeasedW) := by
  have h := ensure_spec poolLeasedW (some 0) 64 1 true (by decide)
    (by intro i hi; cases hi; decide)
    (by intro i hi; cases hi; decide)
  exact h.1 0 rfl (by decide)

/-! ## Claim C6: sticky overflow -/

/-- Claim C6: while the overflow flag is set, both alloc entry points
return null without changing anything; with the flag clear, the plain alloc
fails and sets the flag exactly when `ensure` can produce no buffer; and
`flush` always clears the flag, reporting a lost range exactly when the
flag was set. -/
theorem overflow_sticky (mem : Memory) (m : Msg) (isRef0 : Bool)
    (size sizeReference : ℕ) (mk : Bool → Msg) (t : ℕ) (ck : Bool)
    (u : ℕ → Bool) :
    (mem.overflow = true →
      mem.alloc m t ck = (false, mem) ∧
      mem.allocDedup isRef0 size sizeReference mk t ck = (false, mem)) ∧
    (mem.overflow = false →
      ((mem.alloc m t ck).1 = false ↔
        (mem.pool.ensure (mem.tbuf t) m.msizeArg t ck).1 = none) ∧
      ((mem.alloc m t ck).2.overflow = true ↔
        (mem.pool.ensure (mem.tbuf t) m.msizeArg t ck).1 = none)) ∧
    (mem.flush u).1.overflow = false ∧
    ((mem.flush u).2.2.isSome ↔ mem.overflow = true) := by
  refine ⟨?_, ?_, ?_, ?_⟩
  · intro hov
    constructor
    · simp [Memory.alloc, hov]
    · simp [Memory.allocDedup, hov]
  · intro hov
    rcases hres : mem.pool.ensure (mem.tbuf t) m.msizeArg t ck with ⟨o, p'⟩
    cases o with
    | some i =>
        constructor
        · simp [Memory.alloc, hov, hres]
        · simp only [Memory.alloc, hov, hres]
          simp [Memory.setTbuf]
          split <;> simp
    | none =>
        constructor <;> simp [Memory.alloc, hov, hres, Memory.setTbuf]
  · simp [Memory.flush]
  · cases hov : mem.overflow <;> simp [Memory.flush, hov]

theorem overflow_sticky_witness :
    memOverflowW.alloc msgFullW 0 true = (false, memOverflowW) ∧
    (memOverflowW.flush (fun _ => true)).1.overflow = false ∧
    (memOverflowW.flush (fun _ => true)).2.2.isSome := by
  have h := overflow_sticky memOverflowW msgFullW false 64 111
    (fun _ => msgFullW) 0 true (fun _ => true)
  exact ⟨(h.1 rfl).1, h.2.2.1, (h.2.2.2).mpr rfl⟩

/-! ## Same-buffer allocation lemmas -/

theorem le_alignUp_ptr (x : ℕ) : x ≤ alignUp x ptrAlign := by
  show x ≤ (x + 8 - 1) / 8 * 8
  omega

theorem Pool.setBuf_setBuf (p : Pool) (i : ℕ) (b₁ b₂ : TLB) :
    (p.setBuf i b₁).setBuf i b₂ = p.setBuf i b₂ := by
  simp [Pool.setBuf, List.set_set]

theorem Memory.alloc_same_buffer (mem : Memory) (m : Msg) (t i : ℕ)
    (ck : Bool) (hov : mem.overflow = false) (htb : mem.tbuf t = some i)
    (hroom : m.msizeArg ≤ usub mem.pool.bufferSize (mem.pool.buf i).pos) :
    mem.alloc m t ck =
      (true, { mem with pool := mem.pool.allocWrite i m.msizeArg m }) := by
  have hens : mem.pool.ensure (some i) m.msizeArg t ck =
      (some i, mem.pool) := by
    simp [Pool.ensure, hroom]
  simp [Memory.alloc, hov, htb, hens]

theorem Memory.allocDedup_same_buffer (mem : Memory) (isRef0 : Bool)
    (size sizeReference : ℕ) (mk : Bool → Msg) (t i : ℕ) (ck : Bool)
    (hov : mem.overflow = false) (htb : mem.tbuf t = some i)
    (hroom : size ≤ usub mem.pool.bufferSize (mem.pool.buf i).pos) :
    mem.allocDedup isRef0 size sizeReference mk t ck =
      (true,
        if isRef0 then
          { mem with pool := Pool.setBuf (mem.pool.allocWrite i sizeReference (mk true)) i { ((mem.pool.allocWrite i sizeReference (mk true)).buf i) with refMsg := some (mem.pool.buf i).msgs.length } }
        else { mem with pool := mem.pool.allocWrite i size (mk false) }) := by
  have hens : mem.pool.ensure (some i) size t ck = (some i, mem.pool) := by
    simp [Pool.ensure, hroom]
  cases isRef0 with
  | true => simp [Memory.allocDedup, hov, htb, hens]
  | false => simp [Memory.allocDedup, hov, htb, hens]

/-! ## Claim C5: class-load dedup -/

/-- `CrsClassLoadMessage::post` with a non-empty source writes the full
form and repoints the back-reference slot when the thread's buffer has room
and its back-reference record does not carry the same source. -/
theorem classload_post_full (mem : Memory) (k : ClassInfo)
    (d : Option Digest) (S : String) (t i : ℕ) (ck : Bool) (hS : S ≠ "")
    (hov : mem.overflow = false) (htb : mem.tbuf t = some i)
    (hlen : i < mem.pool.bufs.length)
    (hnew : ∀ r, (mem.pool.buf i).refRecord = some r →
        Msg.liveSource r ≠ some S)
    (hroom : offsetClassLoadSource + (S.length + 1) ≤
        usub mem.pool.bufferSize (mem.pool.buf i).pos) :
    CrsClassLoadMessage.post mem k d (some S) t ck =
      { mem with pool := mem.pool.setBuf i { (mem.pool.buf i) with pos := (mem.pool.buf i).pos + alignUp (offsetClassLoadSource + (S.length + 1)) ptrAlign, refMsg := some (mem.pool.buf i).msgs.length, msgs := (mem.pool.buf i).msgs ++ [fullRecord k d S] } } := by
  have hrm : mem.referenceMessage t = (mem.pool.buf i).refRecord := by
    simp [Memory.referenceMessage, htb]
  have hprev : ((mem.referenceMessage t).bind fun r =>
      if (Msg.liveSource r).isSome = true then some r else none) = none ∨
      ∃ r S', ((mem.referenceMessage t).bind fun r =>
        if (Msg.liveSource r).isSome = true then some r else none) = some r ∧
        Msg.liveSource r = some S' ∧ S' ≠ S := by
    rw [hrm]
    cases href : (mem.pool.buf i).refRecord with
    | none => exact Or.inl rfl
    | some r =>
        cases hls : Msg.liveSource r with
        | none => simp [hls]
        | some S' =>
            right
            refine ⟨r, S', by simp [hls], hls, ?_⟩
            intro hSS
            exact hnew r href (by rw [hls, hSS])
  rcases hprev with hprev | ⟨r, S', hprev, hls, hne⟩
  · simp only [CrsClassLoadMessage.post, hprev, Option.some_bind,
      if_neg hS, Option.bind_none, if_true]
    rw [Memory.allocDedup_same_buffer mem true _ _ _ t i ck hov htb hroom]
    simp only [if_pos trivial]
    rw [Pool.allocWrite, Pool.buf_setBuf_eq _ _ _ hlen, Pool.setBuf_setBuf]
    simp [TLB.writeMsg, fullRecord]
  · have hdec : (decide (Msg.liveSource r ≠ some S)) = true := by
      simp [hls, hne]
    simp only [CrsClassLoadMessage.post, hprev, Option.some_bind,
      if_neg hS, hdec, if_true]
    rw [Memory.allocDedup_same_buffer mem true _ _ _ t i ck hov htb hroom]
    simp only [if_pos trivial]
    rw [Pool.allocWrite, Pool.buf_setBuf_eq _ _ _ hlen, Pool.setBuf_setBuf]
    simp [TLB.writeMsg, fullRecord]

/-- `CrsClassLoadMessage::post` writes the compact same-source reference
form and leaves the back-reference slot unchanged when the slot's record
carries exactly the posted (non-empty) source. -/
theorem classload_post_same (mem : Memory) (k : ClassInfo)
    (d : Option Digest) (S : String) (r : Msg) (t i : ℕ) (ck : Bool)
    (hS : S ≠ "")
    (hov : mem.overflow = false) (htb : mem.tbuf t = some i)
    (href : (mem.pool.buf i).refRecord = some r)
    (hls : Msg.liveSource r = some S)
    (hroom : sizeofClassLoadMessage ≤
        usub mem.pool.bufferSize (mem.pool.buf i).pos) :
    CrsClassLoadMessage.post mem k d (some S) t ck =
      { mem with pool := mem.pool.setBuf i { (mem.pool.buf i) with pos := (mem.pool.buf i).pos + alignUp sizeofClassLoadMessage ptrAlign, msgs := (mem.pool.buf i).msgs ++ [refRecord k d] } } := by
  have hrm : mem.referenceMessage t = some r := by
    simp [Memory.referenceMessage, htb, href]
  have hprev : ((mem.referenceMessage t).bind fun r =>
      if (Msg.liveSource r).isSome = true then some r else none) = some r := by
    simp [hrm, hls]
  have hdec : (decide (Msg.liveSource r ≠ some S)) = false := by
    simp [hls]
  simp only [CrsClassLoadMessage.post, hprev, Option.some_bind, if_neg hS,
    hdec, Bool.false_eq_true, if_false]
  rw [Memory.allocDedup_same_buffer mem false _ _ _ t i ck hov htb hroom]
  simp only [Bool.false_eq_true, if_false]
  rw [Pool.allocWrite]
  simp [TLB.writeMsg, refRecord]

/-- Claim C5: posting two class-load events with the same non-empty source
into one freshly leased buffer writes a full record (repointing the
back-reference slot at it) then a compact reference-form record (slot
unchanged); a third event with a different source writes a new full record
and repoints the slot at it. -/
theorem classload_dedup_triple (mem : Memory) (t i : ℕ) (ck : Bool)
    (c1 c2 c3 : ClassInfo) (d1 d2 d3 : Option Digest) (S T : String)
    (hS : S ≠ "") (hT : T ≠ "") (hTS : T ≠ S)
    (hov : mem.overflow = false) (htb : mem.tbuf t = some i)
    (hlen : i < mem.pool.bufs.length)
    (hfresh : mem.pool.buf i = TLB.lease t)
    (hfit : alignUp (offsetClassLoadSource + (S.length + 1)) ptrAlign
        + sizeofClassLoadMessage + (offsetClassLoadSource + (T.length + 1))
        ≤ mem.pool.bufferSize) :
    ((CrsClassLoadMessage.post mem c1 d1 (some S) t ck).pool.buf i).msgs = [fullRecord c1 d1 S] ∧
    ((CrsClassLoadMessage.post mem c1 d1 (some S) t ck).pool.buf i).refMsg = some 0 ∧
    ((CrsClassLoadMessage.post (CrsClassLoadMessage.post mem c1 d1 (some S) t ck) c2 d2 (some S) t ck).pool.buf i).msgs = [fullRecord c1 d1 S, refRecord c2 d2] ∧
    ((CrsClassLoadMessage.post (CrsClassLoadMessage.post mem c1 d1 (some S) t ck) c2 d2 (some S) t ck).pool.buf i).refMsg = some 0 ∧
    ((CrsClassLoadMessage.post (CrsClassLoadMessage.post (CrsClassLoadMessage.post mem c1 d1 (some S) t ck) c2 d2 (some S) t ck) c3 d3 (some T) t ck).pool.buf i).msgs = [fullRecord c1 d1 S, refRecord c2 d2, fullRecord c3 d3 T] ∧
    ((CrsClassLoadMessage.post (CrsClassLoadMessage.post (CrsClassLoadMessage.post mem c1 d1 (some S) t ck) c2 d2 (some S) t ck) c3 d3 (some T) t ck).pool.buf i).refMsg = some 2 := by
  have hA64 : alignUp sizeofClassLoadMessage ptrAlign = sizeofClassLoadMessage := by
    decide
  have hleS := le_alignUp_ptr (offsetClassLoadSource + (S.length + 1))
  have hpos0 : (mem.pool.buf i).pos = 0 := by rw [hfresh]; rfl
  have husub0 : usub mem.pool.bufferSize (mem.pool.buf i).pos =
      mem.pool.bufferSize := by
    rw [hpos0, usub_of_le (Nat.zero_le _)]
    omega
  -- step 1: full record, slot repointed
  have h1 := classload_post_full mem c1 d1 S t i ck hS hov htb hlen
    (by rw [hfresh]; intro r hr; simp [TLB.refRecord, TLB.lease] at hr)
    (by rw [husub0]; omega)
  have hb1 : (CrsClassLoadMessage.post mem c1 d1 (some S) t ck).pool.buf i =
      { pos := alignUp (offsetClassLoadSource + (S.length + 1)) ptrAlign
        owner := some t, refMsg := some 0, msgs := [fullRecord c1 d1 S] } := by
    rw [h1]
    show (mem.pool.setBuf i _).buf i = _
    rw [Pool.buf_setBuf_eq _ _ _ hlen, hfresh]
    simp [TLB.lease]
  have hov1 : (CrsClassLoadMessage.post mem c1 d1 (some S) t ck).overflow = false := by
    rw [h1]; exact hov
  have htb1 : (CrsClassLoadMessage.post mem c1 d1 (some S) t ck).tbuf t = some i := by
    rw [h1]; exact htb
  have hlen1 : i < (CrsClassLoadMessage.post mem c1 d1 (some S) t ck).pool.bufs.length := by
    rw [h1]; simpa [Pool.setBuf] using hlen
  have hbs1 : (CrsClassLoadMessage.post mem c1 d1 (some S) t ck).pool.bufferSize =
      mem.pool.bufferSize := by
    rw [h1]; rfl
  have href1 : ((CrsClassLoadMessage.post mem c1 d1 (some S) t ck).pool.buf i).refRecord =
      some (fullRecord c1 d1 S) := by
    rw [hb1]; rfl
  have hls1 : Msg.liveSource (fullRecord c1 d1 S) = some S := rfl
  -- step 2: same source, reference form, slot unchanged
  have h2 := classload_post_same (CrsClassLoadMessage.post mem c1 d1 (some S) t ck)
    c2 d2 S (fullRecord c1 d1 S) t i ck hS hov1 htb1 href1 hls1
    (by
      rw [hbs1, hb1]
      show sizeofClassLoadMessage ≤ usub mem.pool.bufferSize
        (alignUp (offsetClassLoadSource + (S.length + 1)) ptrAlign)
      rw [usub_of_le (by omega)]
      omega)
  have hb2 : (CrsClassLoadMessage.post (CrsClassLoadMessage.post mem c1 d1 (some S) t ck) c2 d2 (some S) t ck).pool.buf i =
      { pos := alignUp (offsetClassLoadSource + (S.length + 1)) ptrAlign + sizeofClassLoadMessage
        owner := some t, refMsg := some 0
        msgs := [fullRecord c1 d1 S, refRecord c2 d2] } := by
    rw [h2]
    show ((CrsClassLoadMessage.post mem c1 d1 (some S) t ck).pool.setBuf i _).buf i = _
    rw [Pool.buf_setBuf_eq _ _ _ hlen1, hb1, hA64]
    rfl
  have hov2 : (CrsClassLoadMessage.post (CrsClassLoadMessage.post mem c1 d1 (some S) t ck) c2 d2 (some S) t ck).overflow = false := by
    rw [h2]; exact hov1
  have htb2 : (CrsClassLoadMessage.post (CrsClassLoadMessage.post mem c1 d1 (some S) t ck) c2 d2 (some S) t ck).tbuf t = some i := by
    rw [h2]; exact htb1
  have hlen2 : i < (CrsClassLoadMessage.post (CrsClassLoadMessage.post mem c1 d1 (some S) t ck) c2 d2 (some S) t ck).pool.bufs.length := by
    rw [h2]; simpa [Pool.setBuf] using hlen1
  have hbs2 : (CrsClassLoadMessage.post (CrsClassLoadMessage.post mem c1 d1 (some S) t ck) c2 d2 (some S) t ck).pool.bufferSize =
      mem.pool.bufferSize := by
    rw [h2, ← hbs1]; rfl
  have href2 : ((CrsClassLoadMessage.post (CrsClassLoadMessage.post mem c1 d1 (some S) t ck) c2 d2 (some S) t ck).pool.buf i).refRecord =
      some (fullRecord c1 d1 S) := by
    rw [hb2]; rfl
  -- step 3: different source, full record, slot repointed
  have h3 := classload_post_full (CrsClassLoadMessage.post (CrsClassLoadMessage.post mem c1 d1 (some S) t ck) c2 d2 (some S) t ck)
    c3 d3 T t i ck hT hov2 htb2 hlen2
    (by
      intro r hr
      rw [href2] at hr
      cases hr
      simp [hls1]
      intro hST
      exact hTS hST.symm)
    (by
      rw [hbs2, hb2]
      show offsetClassLoadSource + (T.length + 1) ≤ usub mem.pool.bufferSize
        (alignUp (offsetClassLoadSource + (S.length + 1)) ptrAlign
          + sizeofClassLoadMessage)
      rw [usub_of_le (by omega)]
      omega)
  have hb3 : (CrsClassLoadMessage.post (CrsClassLoadMessage.post (CrsClassLoadMessage.post mem c1 d1 (some S) t ck) c2 d2 (some S) t ck) c3 d3 (some T) t ck).pool.buf i =
      { pos := alignUp (offsetClassLoadSource + (S.length + 1)) ptrAlign + sizeofClassLoadMessage + alignUp (offsetClassLoadSource + (T.length + 1)) ptrAlign
        owner := some t, refMsg := some 2
        msgs := [fullRecord c1 d1 S, refRecord c2 d2, fullRecord c3 d3 T] } := by
    rw [h3]
    show ((CrsClassLoadMessage.post (CrsClassLoadMessage.post mem c1 d1 (some S) t ck) c2 d2 (some S) t ck).pool.setBuf i _).buf i = _
    rw [Pool.buf_setBuf_eq _ _ _ hlen2, hb2]
    rfl
  exact ⟨by rw [hb1], by rw [hb1], by rw [hb2], by rw [hb2],
    by rw [hb3], by rw [hb3]⟩

theorem classload_dedup_triple_witness :
    ((CrsClassLoadMessage.post (CrsClassLoadMessage.post (CrsClassLoadMessage.post memDedupW ⟨"K1", 1, 2⟩ none (some sourceA) 0 true) ⟨"K2", 2, 2⟩ none (some sourceA) 0 true) ⟨"K3", 3, 2⟩ none (some sourceB) 0 true).pool.buf 0).msgs
      = [fullRecord ⟨"K1", 1, 2⟩ none sourceA, refRecord ⟨"K2", 2, 2⟩ none,
         fullRecord ⟨"K3", 3, 2⟩ none sourceB] := by
  have h := classload_dedup_triple memDedupW 0 0 true ⟨"K1", 1, 2⟩ ⟨"K2", 2, 2⟩
    ⟨"K3", 3, 2⟩ none none none sourceA sourceB (by decide) (by decide)
    (by decide) rfl rfl (by decide) (by decide) (by decide)
  exact h.2.2.2.2.1

/-! ## Claim C1: the blow protocol -/

set_option maxHeartbeats 2000000 in
/-- Claim C1: blowing a live class-load record (when the destination buffer
has room, so the blown allocation succeeds) appends exactly one new
self-contained blown record whose decoded fields equal those of the
original (resolving a same-source record through the buffer's
back-reference slot); it overwrites only the original record's type tag to
Deleted, leaving its size — and hence every arena walk step — unchanged;
and processing a Deleted record makes no upcall and changes nothing. -/
theorem classload_blow_spec (mem : Memory) (tlbIdx msgIdx t dj : ℕ)
    (ck : Bool) (fm : Msg) (k : ClassInfo) (d : Option Digest)
    (source : Option String) (sameSource : Bool)
    (hget : (mem.pool.buf tlbIdx).msgs.get? msgIdx = some fm)
    (_hty : fm.mtype = .classLoad)
    (hpl : fm.payload = .classLoad k d source sameSource)
    (hres : sameSource = true → ∃ s, (mem.pool.buf tlbIdx).refSource = some s)
    (hov : mem.overflow = false)
    (htb : mem.tbuf t = some dj)
    (hdj : dj ≠ tlbIdx)
    (hdlen : dj < mem.pool.bufs.length)
    (htlen : tlbIdx < mem.pool.bufs.length)
    (hroom : offsetBlownSourceAndName + blownSourceSize (mem.pool.buf tlbIdx) fm + k.name.length + 1 ≤ usub mem.pool.bufferSize (mem.pool.buf dj).pos) :
    ∃ bm, CrsClassLoadMessageBlown.make (mem.pool.buf tlbIdx) fm = some bm ∧
      bm.mtype = .classLoadBlown ∧
      ((CrsClassLoadMessage.blow mem tlbIdx msgIdx t ck).pool.buf dj).msgs
        = (mem.pool.buf dj).msgs ++ [bm] ∧
      Msg.decodeClassLoad (mem.pool.buf tlbIdx) bm
        = Msg.decodeClassLoad (mem.pool.buf tlbIdx) fm ∧
      ((CrsClassLoadMessage.blow mem tlbIdx msgIdx t ck).pool.buf tlbIdx).msgs.get? msgIdx
        = some { fm with mtype := .deleted } ∧
      (∀ j, j ≠ msgIdx →
        ((CrsClassLoadMessage.blow mem tlbIdx msgIdx t ck).pool.buf tlbIdx).msgs.get? j
          = (mem.pool.buf tlbIdx).msgs.get? j) ∧
      ((CrsClassLoadMessage.blow mem tlbIdx msgIdx t ck).pool.buf tlbIdx).msgs.map Msg.walkStep
        = (mem.pool.buf tlbIdx).msgs.map Msg.walkStep ∧
      ((CrsClassLoadMessage.blow mem tlbIdx msgIdx t ck).pool.buf tlbIdx).pos
        = (mem.pool.buf tlbIdx).pos ∧
      ((CrsClassLoadMessage.blow mem tlbIdx msgIdx t ck).pool.buf tlbIdx).refMsg
        = (mem.pool.buf tlbIdx).refMsg ∧
      (∀ (tlb0 : TLB) (s : ℕ),
        Msg.process tlb0 s { fm with mtype := .deleted } = (tlb0, [])) := by
  have hmake : CrsClassLoadMessageBlown.make (mem.pool.buf tlbIdx) fm =
      some { mtype := .classLoadBlown, msizeArg := offsetBlownSourceAndName + blownSourceSize (mem.pool.buf tlbIdx) fm + k.name.length + 1, payload := .classLoadBlown k.loaderId k.klassId d (source.isSome || sameSource) (blownSrcStr (mem.pool.buf tlbIdx) source sameSource) k.name } := by
    simp only [CrsClassLoadMessageBlown.make, hpl]
  have hpost : CrsClassLoadMessageBlown.post mem (mem.pool.buf tlbIdx) fm t ck =
      { mem with pool := mem.pool.allocWrite dj (offsetBlownSourceAndName + blownSourceSize (mem.pool.buf tlbIdx) fm + k.name.length + 1) { mtype := .classLoadBlown, msizeArg := offsetBlownSourceAndName + blownSourceSize (mem.pool.buf tlbIdx) fm + k.name.length + 1, payload := .classLoadBlown k.loaderId k.klassId d (source.isSome || sameSource) (blownSrcStr (mem.pool.buf tlbIdx) source sameSource) k.name } } := by
    simp only [CrsClassLoadMessageBlown.post, hmake]
    rw [Memory.alloc_same_buffer mem _ t dj ck hov htb hroom]
  have hblow : CrsClassLoadMessage.blow mem tlbIdx msgIdx t ck =
      { CrsClassLoadMessageBlown.post mem (mem.pool.buf tlbIdx) fm t ck with pool := Pool.setBuf (CrsClassLoadMessageBlown.post mem (mem.pool.buf tlbIdx) fm t ck).pool tlbIdx { ((CrsClassLoadMessageBlown.post mem (mem.pool.buf tlbIdx) fm t ck).pool.buf tlbIdx) with msgs := listModify (fun m => { m with mtype := .deleted }) msgIdx ((CrsClassLoadMessageBlown.post mem (mem.pool.buf tlbIdx) fm t ck).pool.buf tlbIdx).msgs } } := by
    simp only [CrsClassLoadMessage.blow, hget]
  have hb1 : (CrsClassLoadMessageBlown.post mem (mem.pool.buf tlbIdx) fm t ck).pool.buf tlbIdx = mem.pool.buf tlbIdx := by
    rw [hpost]
    show (mem.pool.setBuf dj _).buf tlbIdx = _
    exact Pool.buf_setBuf_ne _ _ _ _ hdj
  have hlen1 : tlbIdx < (CrsClassLoadMessageBlown.post mem (mem.pool.buf tlbIdx) fm t ck).pool.bufs.length := by
    rw [hpost]
    simpa [Pool.allocWrite, Pool.setBuf] using htlen
  have hscan : (CrsClassLoadMessage.blow mem tlbIdx msgIdx t ck).pool.buf tlbIdx =
      { (mem.pool.buf tlbIdx) with msgs := listModify (fun m => { m with mtype := .deleted }) msgIdx (mem.pool.buf tlbIdx).msgs } := by
    rw [hblow]
    show ((CrsClassLoadMessageBlown.post mem (mem.pool.buf tlbIdx) fm t ck).pool.setBuf tlbIdx _).buf tlbIdx = _
    rw [Pool.buf_setBuf_eq _ _ _ hlen1, hb1]
  have hdst : (CrsClassLoadMessage.blow mem tlbIdx msgIdx t ck).pool.buf dj =
      (mem.pool.buf dj).writeMsg (offsetBlownSourceAndName + blownSourceSize (mem.pool.buf tlbIdx) fm + k.name.length + 1) { mtype := .classLoadBlown, msizeArg := offsetBlownSourceAndName + blownSourceSize (mem.pool.buf tlbIdx) fm + k.name.length + 1, payload := .classLoadBlown k.loaderId k.klassId d (source.isSome || sameSource) (blownSrcStr (mem.pool.buf tlbIdx) source sameSource) k.name } := by
    rw [hblow]
    show ((CrsClassLoadMessageBlown.post mem (mem.pool.buf tlbIdx) fm t ck).pool.setBuf tlbIdx _).buf dj = _
    rw [Pool.buf_setBuf_ne _ _ _ _ (Ne.symm hdj), hpost]
    show (mem.pool.setBuf dj _).buf dj = _
    rw [Pool.buf_setBuf_eq _ _ _ hdlen]
  refine ⟨_, hmake, rfl, ?_, ?_, ?_, ?_, ?_, ?_, ?_, ?_⟩
  · rw [hdst]
    rfl
  · cases source with
    | some s => simp [Msg.decodeClassLoad, hpl, blownSrcStr]
    | none =>
        cases sameSource with
        | false => simp [Msg.decodeClassLoad, hpl, blownSrcStr]
        | true =>
            obtain ⟨s0, hs0⟩ := hres rfl
            simp [Msg.decodeClassLoad, hpl, blownSrcStr, hs0]
  · rw [hscan]
    show (listModify _ msgIdx (mem.pool.buf tlbIdx).msgs).get? msgIdx = _
    rw [listModify_get?_eq, hget]
    rfl
  · intro j hj
    rw [hscan]
    show (listModify _ msgIdx (mem.pool.buf tlbIdx).msgs).get? j = _
    exact listModify_get?_ne _ msgIdx j (Ne.symm hj) _
  · rw [hscan]
    show (listModify _ msgIdx (mem.pool.buf tlbIdx).msgs).map Msg.walkStep = _
    exact listModify_map (fun m => { m with mtype := CrsType.deleted })
      Msg.walkStep (fun a => rfl) msgIdx (mem.pool.buf tlbIdx).msgs
  · rw [hscan]
  · rw [hscan]
  · intro tlb0 s
    simp [Msg.process, hpl]

theorem classload_blow_spec_witness :
    ((CrsClassLoadMessage.blow memBlowW 0 0 1 true).pool.buf 1).msgs.length = 1 ∧
    ((CrsClassLoadMessage.blow memBlowW 0 0 1 true).pool.buf 0).msgs.get? 0
      = some { msgFullW with mtype := CrsType.deleted } := by
  obtain ⟨bm, hmk, hbt, happ, hdec, hdel, hrest⟩ :=
    classload_blow_spec memBlowW 0 0 1 1 true msgFullW ⟨"A", 5, 3⟩ none
      (some "s") false (by decide) rfl rfl
      (by intro h; exact absurd h (by decide)) rfl rfl (by decide) (by decide)
      (by decide) (by decide)
  exact ⟨by rw [happ]; rfl, hdel⟩

/-- Claim C1, counterexample: blowing a live class-load record while the
sticky overflow flag is set appends no blown record anywhere (the pool has
only buffers 0 and 1, and neither gains a record), yet the original record
is still retagged Deleted — its content is lost rather than preserved. -/
theorem classload_blow_overflow_drops_record :
    memBlowOvW.pool.bufs.length = 2 ∧
    ((CrsClassLoadMessage.blow memBlowOvW 0 0 1 true).pool.buf 0).msgs
      = [{ msgFullW with mtype := CrsType.deleted }] ∧
    ((CrsClassLoadMessage.blow memBlowOvW 0 0 1 true).pool.buf 1).msgs = [] := by
  decide

/-! ## Claim C2: pool conservation -/

/-- Claim C2, failing run: flushing a pool with one committed free buffer
and one uncommitted buffer (the `TLBManager` constructor's state for a
6000-byte area) towards a committed goal of 0 while `os::uncommit_memory`
fails: the trailing decommit loop pops buffer 0 off the free list and, on
the failed decommit, breaks without pushing it anywhere.  Conservation
holds before the call and is off by one after it, as is the committed
counter. -/
theorem flush_trailing_uncommit_drops_buffer :
    ((Pool.init 6000).free.length + (Pool.init 6000).leased.length +
        (Pool.init 6000).uncommitted.length = (Pool.init 6000).buffersCount) ∧
    ((Pool.init 6000).numCommitted =
      (Pool.init 6000).free.length + (Pool.init 6000).leased.length) ∧
    (((Pool.init 6000).flushBuffers TLB.processAll (fun _ => false) 0).1.free.length +
     ((Pool.init 6000).flushBuffers TLB.processAll (fun _ => false) 0).1.leased.length +
     ((Pool.init 6000).flushBuffers TLB.processAll (fun _ => false) 0).1.uncommitted.length) + 1
       = ((Pool.init 6000).flushBuffers TLB.processAll (fun _ => false) 0).1.buffersCount ∧
    ((Pool.init 6000).flushBuffers TLB.processAll (fun _ => false) 0).1.numCommitted =
      (((Pool.init 6000).flushBuffers TLB.processAll (fun _ => false) 0).1.free.length +
       ((Pool.init 6000).flushBuffers TLB.processAll (fun _ => false) 0).1.leased.length) + 1 := by
  decide

/-! ## Claim C7: forced stop flush -/

/-- Claim C7, failing run: `flush_buffers(force=true, and_stop=true)` on an
engaged system whose pool is idle (`bytes_used() == 0`): the
`VM_CRSOperation` prologue `release_buffers_pre` returns false, so `doit`
— including the `and_stop` disabling of both notification kinds — is
skipped entirely; both flags stay enabled and a later class-load
notification still writes a record (into the buffer the thread then
leases). -/
theorem flush_stop_skips_disable_when_idle :
    ((sysIdle.flushBuffers true true (fun _ => true)).1.clShouldNotify = true) ∧
    ((sysIdle.flushBuffers true true (fun _ => true)).1.fcShouldNotify = true) ∧
    (sysIdle.mem.pool.bytesUsed = 0) ∧
    (((Sys.notifyClassLoad (sysIdle.flushBuffers true true (fun _ => true)).1 ⟨"K", 1, 1⟩ none (some "src") 0 true).mem.pool.buf 1).msgs.length = 1) := by
  decide

/-! ## Claim C8: the example scenario -/

/-- Claim C8, counterexample: with the code's record layout, a full
class-load record with a 50-byte source occupies
`offset_of(_source) + 51 = 111` bytes and cannot fit a 64-byte buffer.
Posting the three scenario events into the posited pool of two 64-byte
buffers writes all three records into buffer 0 — 111 bytes (full form),
64 bytes (reference form), 111 bytes (full form) — overrunning the bump
pointer to 288; buffer 1 is never leased (it stays on the free list with
no records), contradicting the claim that the second event leases buffer
2 and is written there. -/
theorem scenario_64_byte_buffers :
    offsetClassLoadSource + (sourceA.length + 1) = 111 ∧ 64 < 111 ∧
    ((scenarioPost3 64).pool.buf 0).msgs.map Msg.msizeArg = [111, 64, 111] ∧
    ((scenarioPost3 64).pool.buf 0).pos = 288 ∧
    ((scenarioPost3 64).pool.buf 1).msgs = [] ∧
    (scenarioPost3 64).pool.free = [1] ∧
    (scenarioPost3 64).pool.leased = [0] := by
  decide

/-- Claim C8, amended: with buffers large enough for the code's record
layout (4096 bytes each), the three scenario events all fit in buffer 0:
a full 111-byte record, the 64-byte same-source reference record, and the
third event's full 111-byte record, with the back-reference slot left on
the third record; buffer 1 is never leased. -/
theorem scenario_amended :
    ((scenarioPost3 4096).pool.buf 0).msgs =
      [fullRecord ⟨"C1", 1, 7⟩ none sourceA, refRecord ⟨"C2", 2, 7⟩ none,
       fullRecord ⟨"C3", 3, 7⟩ none sourceB] ∧
    ((scenarioPost3 4096).pool.buf 0).refMsg = some 2 ∧
    ((scenarioPost3 4096).pool.buf 1).msgs = [] ∧
    (scenarioPost3 4096).pool.free = [1] := by
  decide

/-! ## Claim C9: record sizes -/

/-- `NativeMemory::alloc(ref_id, ...)` called by a thread with no current
buffer leases the head of the free list and writes the full-form record
there, for ANY requested size: neither `ensure` on the no-buffer path nor
`lease_buffer` compares the size against the buffer capacity. -/
theorem Memory.allocDedup_fresh_buffer (mem : Memory) (isRef0 : Bool)
    (size sizeReference : ℕ) (mk : Bool → Msg) (t i : ℕ) (ck : Bool)
    (rest : List ℕ)
    (hov : mem.overflow = false) (htb : mem.tbuf t = none)
    (hfree : mem.pool.free = i :: rest) (hlen : i < mem.pool.bufs.length) :
    ((mem.allocDedup isRef0 size sizeReference mk t ck).2.pool.buf i).msgs
      = [mk true] := by
  have hr1 : (mem.pool.leaseBuffer t ck).1 = some i := by
    simp [Pool.leaseBuffer, hfree, AList.remove]
  have hbufs : (mem.pool.leaseBuffer t ck).2.bufs =
      mem.pool.bufs.set i (TLB.lease t) :=
    (Pool.leaseBuffer_result _ t ck i hr1).2
  have hbufi : (mem.pool.leaseBuffer t ck).2.buf i = TLB.lease t := by
    show (mem.pool.leaseBuffer t ck).2.bufs.getD i {} = _
    rw [hbufs]
    simp [List.getD, List.getElem?_set_eq_of_lt _ hlen]
  have hlen' : i < (mem.pool.leaseBuffer t ck).2.bufs.length := by
    rw [hbufs]
    simpa using hlen
  have hens : mem.pool.ensure none size t ck = mem.pool.leaseBuffer t ck := rfl
  rcases hlb : mem.pool.leaseBuffer t ck with ⟨o, p'⟩
  rw [hlb] at hr1 hbufi hlen'
  simp only at hr1
  subst hr1
  simp only [Memory.allocDedup, hov, Bool.false_eq_true, if_false, htb,
    hens, hlb, ne_eq, reduceCtorEq, not_false_eq_true, decide_True,
    Bool.or_true, if_true, eq_self_iff_true, Memory.setTbuf, Pool.allocWrite]
  rw [Pool.buf_setBuf_eq _ _ _ (by simpa [Pool.setBuf] using hlen')]
  show ((p'.setBuf i
      ((p'.buf i).writeMsg sizeReference (mk true))).buf i).msgs = [mk true]
  rw [Pool.buf_setBuf_eq _ _ _ hlen', hbufi]
  rfl

/-- `CrsClassLoadMessage::post` from a thread with no current buffer, a
non-empty source and a non-empty free list writes a full-form record of
`offset_of(_source) + strlen(source) + 1` bytes into the freshly leased
buffer, whatever that size is. -/
theorem classload_post_fresh_lease (mem : Memory) (k : ClassInfo)
    (d : Option Digest) (S : String) (t i : ℕ) (ck : Bool) (rest : List ℕ)
    (hS : S ≠ "")
    (hov : mem.overflow = false) (htb : mem.tbuf t = none)
    (hfree : mem.pool.free = i :: rest) (hlen : i < mem.pool.bufs.length) :
    ((CrsClassLoadMessage.post mem k d (some S) t ck).pool.buf i).msgs
      = [fullRecord k d S] := by
  have hrm : mem.referenceMessage t = none := by
    simp [Memory.referenceMessage, htb]
  simp only [CrsClassLoadMessage.post, hrm, Option.some_bind, if_neg hS,
    Option.none_bind, if_true]
  rw [Memory.allocDedup_fresh_buffer mem _ _ _ _ t i ck rest hov htb hfree hlen]
  simp [fullRecord]

/-- The full-form class-load record's constructor-argument size is the
source offset plus the source length plus one. -/
theorem fullRecord_msizeArg (k : ClassInfo) (d : Option Digest) (s : String) :
    Msg.msizeArg (fullRecord k d s) = offsetClassLoadSource + (s.length + 1) := rfl

/-- The full-form class-load record's stored `u2` size field is that
constructor argument truncated mod `2 ^ 16`. -/
theorem fullRecord_size (k : ClassInfo) (d : Option Digest) (s : String) :
    Msg.size (fullRecord k d s)
      = (offsetClassLoadSource + (s.length + 1)) % 65536 := rfl

/-- The arena walk advances over a full-form class-load record by the
pointer-aligned stored size. -/
theorem fullRecord_walkStep (k : ClassInfo) (d : Option Digest) (s : String) :
    Msg.walkStep (fullRecord k d s)
      = alignUp ((offsetClassLoadSource + (s.length + 1)) % 65536) ptrAlign := rfl

/-- Claim C9, counterexample: the `size < 1u<<16` bound is only a debug
assert — nothing on the allocation path checks it.  A class-load event
with a 65475-byte source string (a thread with no current buffer, an
ordinary 4096-byte pool) constructs a record of
`offset_of(_source) + 65476 = 65536` actual bytes whose stored `u2` size
field is `(u2)65536 = 0`: the stored size does not equal the actual byte
size, and the arena walk step over the record becomes 0. -/
theorem record_size_truncation :
    ((CrsClassLoadMessage.post (memTwo 4096) ⟨"K", 1, 1⟩ none (some (String.mk (List.replicate 65475 'a'))) 0 true).pool.buf 0).msgs.map Msg.msizeArg = [65536] ∧
    ((CrsClassLoadMessage.post (memTwo 4096) ⟨"K", 1, 1⟩ none (some (String.mk (List.replicate 65475 'a'))) 0 true).pool.buf 0).msgs.map Msg.size = [0] ∧
    ((CrsClassLoadMessage.post (memTwo 4096) ⟨"K", 1, 1⟩ none (some (String.mk (List.replicate 65475 'a'))) 0 true).pool.buf 0).msgs.map Msg.walkStep = [0] := by
  have hlenS : (String.mk (List.replicate 65475 'a')).length = 65475 :=
    List.length_replicate 65475 'a'
  have hS : String.mk (List.replicate 65475 'a') ≠ "" := by
    intro h
    rw [h] at hlenS
    exact absurd hlenS (by decide)
  have hmsgs := classload_post_fresh_lease (memTwo 4096) ⟨"K", 1, 1⟩ none
    (String.mk (List.replicate 65475 'a')) 0 0 true [1] hS rfl rfl rfl
    (by decide)
  rw [hmsgs]
  refine ⟨?_, ?_, ?_⟩
  · rw [List.map_cons, List.map_nil, fullRecord_msizeArg, hlenS]
    decide
  · rw [List.map_cons, List.map_nil, fullRecord_size, hlenS]
    decide
  · rw [List.map_cons, List.map_nil, fullRecord_walkStep, hlenS]
    decide

/-- Claim C9, amended: the stored `u2` size field is the record's actual
byte size truncated mod `2 ^ 16`, so it equals the actual size exactly
when that size is below 65536 — the bound the `CrsMessage` constructor
asserts, which holds for every record a correctly sized source or name can
produce but is enforced only in debug builds (see the truncation
counterexample); the stored field itself never exceeds 65535; the blown
class-load record's size is the blown-header offset plus the copied source
size plus the class name length plus one, and the blown first-call
record's size is its header offset plus name length plus signature length
plus one. -/
theorem record_size_header (m : Msg) (h : m.msizeArg < 65536) :
    Msg.size m = m.msizeArg ∧
    (∀ m' : Msg, Msg.size m' ≤ 65535) ∧
    (∀ (tlb : TLB) (fm bm : Msg) (k : ClassInfo) (d : Option Digest)
        (src : Option String) (ss : Bool),
      fm.payload = .classLoad k d src ss →
      CrsClassLoadMessageBlown.make tlb fm = some bm →
      bm.msizeArg = offsetBlownSourceAndName + blownSourceSize tlb fm +
        k.name.length + 1) ∧
    (∀ (fm bm : Msg) (mi : MethodInfo),
      fm.payload = .firstCall mi →
      CrsFirstCallMessageBlown.make fm = some bm →
      bm.msizeArg = offsetBlownMethodName + mi.name.length +
        mi.sig.length + 1) := by
  refine ⟨Nat.mod_eq_of_lt h, fun m' => ?_, ?_, ?_⟩
  · exact Nat.lt_succ_iff.mp (Nat.mod_lt _ (by norm_num))
  · intro tlb fm bm k d src ss hpl hmk
    simp only [CrsClassLoadMessageBlown.make, hpl, Option.some.injEq] at hmk
    rw [← hmk]
  · intro fm bm mi hpl hmk
    simp only [CrsFirstCallMessageBlown.make, hpl, Option.some.injEq] at hmk
    rw [← hmk]

theorem record_size_header_witness :
    Msg.size msgFullW = msgFullW.msizeArg ∧ Msg.size msgFullW ≤ 65535 := by
  have h := record_size_header msgFullW (by decide)
  exact ⟨h.1, h.2.1 msgFullW⟩

end CRS
